import Mathlib

/-!
# Verification of the programming-books.io site generator

A shallow embedding, in Lean 4, of the content-generation scheduler of
kjk/programming-books.io: the sitemap assembly, the router / handler model, the
book-builder synchronization (semaphore + wait groups), the exporters, and the
page traversal.  Definitions are translated from the Go sources
(`optimize_images.go`, `main.go`, and the unnamed server/book files); components
that live in the external `server` package (or other files not part of the
sources) are modelled from the specification and marked as such in their doc
comments.
-/

namespace PBooks

/-! ## Go string ordering

Go's `sort.Strings` orders strings by byte-wise lexicographic comparison.  We
model it with a structurally recursive comparator over the character list so
that sorting evaluates inside the kernel. -/

/-- Byte-wise lexicographic `≤` on character lists (the order used by Go's
`sort.Strings` on UTF-8 strings). -/
def lexLe : List Char → List Char → Bool
  | [], _ => true
  | _ :: _, [] => false
  | a :: as, b :: bs =>
    if a.toNat < b.toNat then true
    else if b.toNat < a.toNat then false
    else lexLe as bs

/-- Lexicographic `≤` on strings, as used by Go's `sort.Strings`. -/
def goStrLe (a b : String) : Bool := lexLe a.data b.data

/-- The ordering relation behind `goStrLe`, as a proposition. -/
def GoLe (a b : String) : Prop := goStrLe a b = true

instance : DecidableRel GoLe := fun a b => by
  unfold GoLe; infer_instance

/-- Go's `sort.Strings`: the (unique) lexicographically sorted arrangement of a
list of strings, modelled with insertion sort. -/
def sortStrings (l : List String) : List String := List.insertionSort GoLe l

/-! ## Sitemap assembly (`optimize_images.go`: `addSitemapURL`, `genSitemapHandler`) -/

/-- `strings.HasPrefix` via the character list (kernel-reducible). -/
def goStartsWith (s pre : String) : Bool := pre.data.isPrefixOf s.data

/-- `strings.HasSuffix` via the character list (kernel-reducible). -/
def goEndsWith (s suf : String) : Bool := suf.data.isSuffixOf s.data

/-- Modelled from the spec: the site's base URL (the constant `siteBaseURL` is
referenced by the sources but defined in a file that is not among them). -/
def siteBaseURL : String := "https://www.programming-books.io"

/-- Modelled from the spec: `urlJoin` (not among the sources) joins the site
base URL and a path into one absolute URL, avoiding a doubled separator. -/
def urlJoin (base rest : String) : String :=
  if goEndsWith base "/" || goStartsWith rest "/" then base ++ rest
  else base ++ "/" ++ rest

/-- `isFullURL` from `optimize_images.go`: a URI is already absolute when it
starts with an http or https scheme. -/
def isFullURL (uri : String) : Bool :=
  goStartsWith uri "https://" || goStartsWith uri "http://"

/-- A book, restricted to the field the sitemap uses: `Book.sitemapURLS`, a Go
set (`map[string]struct{}`) keyed by URL, modelled as the list of its keys. -/
structure SBook where
  sitemapURLS : List String

/-- Insertion into a Go map-backed set: adding a key that is already present
leaves the set unchanged, so each book's set stays duplicate-free. -/
def setInsert (s : List String) (u : String) : List String :=
  if u ∈ s then s else s ++ [u]

/-- `addSitemapURL` from `optimize_images.go`: absolutize the URI (via
`urlJoin` with `siteBaseURL` unless it is already a full URL) and insert it
into the book's sitemap URL set.  The `muSitemapURLS` lock/unlock pair around
the insertion is treated separately, in the lock-discipline model. -/
def addSitemapURL (b : SBook) (uri : String) : SBook :=
  let uri' := if isFullURL uri then uri else urlJoin siteBaseURL uri
  { b with sitemapURLS := setInsert b.sitemapURLS uri' }

/-- The URL list assembled by `genSitemapHandler` in `optimize_images.go`: for
each book, add "/" to its set, append the whole set to `urls`, then
`sort.Strings(urls)`.  Go map iteration order is unspecified, but the final
sort makes the result the unique sorted arrangement of the collected
multiset, so a fixed iteration order is faithful. -/
def sitemapUrls (books : List SBook) : List String :=
  sortStrings (books.flatMap fun b => (addSitemapURL b "/").sitemapURLS)

/-- The `sitemapTmpl` constant of `optimize_images.go`, applied via
`fmt.Sprintf` to the sitemap URL. -/
def sitemapTmplText (url : String) : String :=
  "User-agent: *\nDisallow:\n\nSitemap: " ++ url ++ "\n"

/-- Modelled from the spec: the static in-memory content handler of the
external server package (`NewContentHandler` / `Add`): a fixed URI→bytes map
whose resolve is a pure map lookup. -/
structure ContentHandler where
  items : List (String × String)

/-- Modelled from the spec: `NewContentHandler(uri, body)` constructs a static
handler owning a single URI. -/
def NewContentHandler (uri body : String) : ContentHandler := ⟨[(uri, body)]⟩

/-- Modelled from the spec: `Add` registers one more static URI→bytes pair. -/
def ContentHandler.Add (h : ContentHandler) (uri body : String) : ContentHandler :=
  ⟨h.items ++ [(uri, body)]⟩

/-- Modelled from the spec: resolution of a static content handler is a map
lookup, absent (`none`) for URIs it does not own. -/
def ContentHandler.get (h : ContentHandler) (uri : String) : Option String :=
  (h.items.find? fun it => it.1 == uri).map (·.2)

/-- `genSitemapHandler` from `optimize_images.go`: a static handler serving
`/robots.txt` (the `sitemapTmpl` text pointing at the sitemap URL) and
`/sitemap.txt` (the collected URLs joined by newlines). -/
def genSitemapHandler (books : List SBook) : ContentHandler :=
  let urls := sitemapUrls books
  let sitemapURL := urlJoin siteBaseURL "sitemap.txt"
  let robotsTxt := sitemapTmplText sitemapURL
  let h := NewContentHandler "/robots.txt" robotsTxt
  h.Add "/sitemap.txt" (String.intercalate "\n" urls)

/-! ## Handlers, router and the book handler
(`optimize_images.go`: `serverGet`, `serverURLS`, `genBookHandler`;
the unnamed server file: `MakeHTTPServer`) -/

/-- A page, restricted to the fields the book handler's producers use:
`Page.NotionID`, the Notion source content (`Page.NotionPage`), the mutable
`Page.BodyHTML`, and `Page.Title`. -/
structure MPage where
  notionID : String
  srcContent : String
  bodyHTML : String
  title : String
deriving DecidableEq

/-- A book, restricted to the fields the handlers use: `Book.DirShort` (the
URL segment) and `Book.Title`. -/
structure MBook where
  dirShort : String
  title : String
deriving DecidableEq

/-- `Book.URL()` from the unnamed book file: `"/essential/" + DirShort + "/"`. -/
def MBook.URL (b : MBook) : String := "/essential/" ++ b.dirShort ++ "/"

/-- Go's `path.Join` restricted to the shapes used here: the first argument is
a cleaned absolute path; a separator is inserted unless already present. -/
def pathJoin (a b : String) : String :=
  if goEndsWith a "/" then a ++ b else a ++ "/" ++ b

/-- `indexURL` of `genBookHandler`: `path.Join(baseURL, "index.html")`. -/
def bookIndexURL (b : MBook) : String := pathJoin b.URL "index.html"

/-- `book404URL` of `genBookHandler`: `path.Join(baseURL, "404.html")`. -/
def book404URL (b : MBook) : String := pathJoin b.URL "404.html"

/-- `overviewURL` of `genBookHandler`: `path.Join(baseURL, "overview.html")`. -/
def bookOverviewURL (b : MBook) : String := pathJoin b.URL "overview.html"

/-- A producer: what the `func(w, r)` closure returned by a handler's resolve
would serve.  Each constructor records which code path produced it and the
data the closure captured. -/
inductive Resolution where
  /-- `genBookIndexHTML(book, w)` — the book index page. -/
  | indexPage (book : MBook)
  /-- `genBook404(book, w)` — the book's not-found page. -/
  | notFoundPage (book : MBook)
  /-- `makeServeContent(overviewURL, genOverviewContent(book))`. -/
  | overviewPage (book : MBook)
  /-- The `page.tmpl.html` producer capturing one page of the book. -/
  | pageTemplate (book : MBook) (pg : MPage)
  /-- Bytes served by a static / file-mapped / directory sub-handler. -/
  | fileContent (d : String)
  /-- A top-level page of `serverGet`, by its template name. -/
  | topPage (tmpl : String)
deriving DecidableEq

/-- A content handler at one moment in time: `resolve` (Go `Get`) and the
owned URI set (Go `URLS`).  A dynamic handler is this structure applied to
the closure state at the moment of observation. -/
structure MHandler (P : Type) where
  get : String → Option P
  urls : List String

/-- The first-match loop of `genBookHandler` over its sub-handlers:
`for _, h := range handlers { if res := h.Get(uri); res != nil { return res } }`. -/
def firstGet {P : Type} : List (MHandler P) → String → Option P
  | [], _ => none
  | h :: t, uri =>
    match h.get uri with
    | some p => some p
    | none => firstGet t uri

/-- Modelled from the spec: `FindHandler` of the external server package
probes the registered handlers in order and returns the first non-absent
resolution (the same first-match shape as the in-source sub-handler loop). -/
def FindHandler {P : Type} (hs : List (MHandler P)) (uri : String) : Option P :=
  firstGet hs uri

/-- Go map lookup `pages[uri]` over the book's url→page map, modelled as an
association-list lookup. -/
def lookupPage (ps : List (String × MPage)) (uri : String) : Option MPage :=
  (ps.find? fun it => it.1 == uri).map (·.2)

/-- The `get` closure of `genBookHandler` (its resolve): the three fixed book
URIs are answered by the `switch`, then the page map is consulted, then the
sub-handlers in order.  The `mu.Lock/Unlock` pair around the body is treated
separately, in the lock-discipline model. -/
def bookGet (book : MBook) (pages : List (String × MPage))
    (handlers : List (MHandler Resolution)) (uri : String) : Option Resolution :=
  if uri = bookIndexURL book then some (.indexPage book)
  else if uri = book404URL book then some (.notFoundPage book)
  else if uri = bookOverviewURL book then some (.overviewPage book)
  else
    match lookupPage pages uri with
    | some pg => some (.pageTemplate book pg)
    | none => firstGet handlers uri

/-- The `getURLs` closure of `genBookHandler`: the three fixed URIs, the page
map's keys, then every sub-handler's URI set. -/
def bookURLs (book : MBook) (pages : List (String × MPage))
    (handlers : List (MHandler Resolution)) : List String :=
  [bookIndexURL book, book404URL book, bookOverviewURL book]
    ++ pages.map (·.1) ++ handlers.flatMap (·.urls)

/-- `serverGet` from `optimize_images.go`: the top-level dynamic handler's
resolve — a `switch` over five fixed URIs, `nil` for everything else.  Each
producer is recorded by the template it would render. -/
def serverGet (uri : String) : Option Resolution :=
  if uri = "/index.html" then some (.topPage "index2.tmpl.html")
  else if uri = "/index-grid.html" then some (.topPage "index-grid.tmpl.html")
  else if uri = "/404.html" then some (.topPage "404-index.tmpl.html")
  else if uri = "/about.html" then some (.topPage "about.tmpl.html")
  else if uri = "/feedback.html" then some (.topPage "feedback.tmpl.html")
  else none

/-- `serverURLS` from `optimize_images.go`: the five top-level URIs. -/
def serverURLS : List String :=
  ["/index.html", "/index-grid.html", "/404.html", "/about.html", "/feedback.html"]

/-- The outcome of one request against the HTTP front end. -/
inductive HResponse (P : Type) where
  | notFound
  | served (p : P)
deriving DecidableEq

/-- The `mainHandler` of `MakeHTTPServer` (unnamed server file): look the URI
up via `FindHandler`; a `nil` producer becomes `http.NotFound`, a non-nil one
is invoked.  The function is total: an unknown URI yields `notFound`, never
an error. -/
def mainHandler {P : Type} (hs : List (MHandler P)) (uri : String) : HResponse P :=
  match FindHandler hs uri with
  | none => .notFound
  | some p => .served p

/-! ## Exporters (unnamed server file: `WriteServerFilesToZip`,
`WriteServerFilesToDir`) -/

/-- Go's `strings.TrimPrefix`: drop the prefix when present, else unchanged. -/
def goTrimLeading (s pre : String) : String :=
  if goStartsWith s pre then s.drop pre.length else s

/-- The compression a zip archive's entries are stored with.  `deflateBest`
records the `RegisterCompressor(zip.Deflate, flate.BestCompression)` call. -/
inductive ZipCompression where
  | store
  | deflateBest
deriving DecidableEq

/-- A zip archive: its entries (name → bytes) and the registered compressor. -/
structure ZipArchive where
  entries : List (String × String)
  compression : ZipCompression
deriving DecidableEq

/-- Modelled from the spec: `server.IterContent` enumerates every handler's
URI set in registration order, resolves each URI, and passes (uri, bytes) to
the callback, skipping absent resolutions.  Handlers here carry bytes
producers (`P = String`). -/
def IterContent (hs : List (MHandler String)) : List (String × String) :=
  hs.flatMap fun h => h.urls.filterMap fun u => (h.get u).map fun d => (u, d)

/-- `WriteServerFilesToZip` (unnamed server file): every (uri, bytes) pair of
`IterContent` becomes a zip entry named by the URI with its leading "/"
stripped; the archive deflates with best compression. -/
def WriteServerFilesToZip (hs : List (MHandler String)) : ZipArchive :=
  { entries := (IterContent hs).map fun e => (goTrimLeading e.1 "/", e.2)
    compression := .deflateBest }

/-- `filepath.FromSlash` on a Unix host: the identity. -/
def fromSlash (s : String) : String := s

/-- `filepath.Join(dir, name)` for the shapes used here. -/
def filepathJoin (dir name : String) : String := dir ++ "/" ++ name

/-- `WriteServerFilesToDir` (unnamed server file): every (uri, bytes) pair of
`IterContent` is written to `filepath.Join(dir, FromSlash(TrimPrefix(uri, "/")))`.
The result is the list of (path, bytes) writes; the `dirCreated` map and the
running size/count are I/O bookkeeping with no effect on what is written. -/
def WriteServerFilesToDir (dir : String) (hs : List (MHandler String)) :
    List (String × String) :=
  (IterContent hs).map fun e => (filepathJoin dir (fromSlash (goTrimLeading e.1 "/")), e.2)

/-! ## Producer invocation (`genBookHandler`'s closures; idempotence) -/

/-- Modelled from the spec: the external rendering collaborators
(`notionToHTML`, `execTemplate`, `genBookIndexHTML`, `genBook404`,
`genOverviewContent`, and the top-level templates), each a deterministic
function of its inputs. -/
structure Renderers where
  /-- `notionToHTML(page, book)` as a function of the page's Notion source. -/
  notionHTML : String → String
  /-- `execTemplate("page.tmpl.html", d, …)` as a function of the PageData. -/
  pageTmpl : String → String
  /-- `genBookIndexHTML(book, w)` as a function of the book's title. -/
  bookIndexHTML : String → String
  /-- `genBook404(book, w)` as a function of the book's title. -/
  book404HTML : String → String
  /-- `genOverviewContent(book)` as a function of the book's title. -/
  overviewHTML : String → String
  /-- The top-level `execTemplate(tmpl, d, …)` as a function of the template. -/
  topTmpl : String → String

/-- The `PageData` assembled by the page producer of `genBookHandler`: the
common data, the page (after its `BodyHTML` was set) and the description. -/
def pageDataStr (book : MBook) (p : MPage) : String :=
  book.title ++ "|" ++ p.notionID ++ "|" ++ p.title ++ "|" ++ p.bodyHTML

/-- Invoking a producer once: the bytes it writes and the producer's captured
state afterwards.  The page producer (from `genBookHandler`) recomputes
`html := notionToHTML(page, book)`, assigns `page.BodyHTML = html`, and
renders `page.tmpl.html` over the resulting PageData; every other producer
writes a deterministic function of its captured data and mutates nothing. -/
def invokeResolution (r : Renderers) : Resolution → String × Resolution
  | .indexPage book => (r.bookIndexHTML book.title, .indexPage book)
  | .notFoundPage book => (r.book404HTML book.title, .notFoundPage book)
  | .overviewPage book => (r.overviewHTML book.title, .overviewPage book)
  | .pageTemplate book pg =>
    let html := r.notionHTML pg.srcContent
    let pg1 := { pg with bodyHTML := html }
    (r.pageTmpl (pageDataStr book pg1), .pageTemplate book pg1)
  | .fileContent d => (d, .fileContent d)
  | .topPage tmpl => (r.topTmpl tmpl, .topPage tmpl)

/-! ## Builder exit paths (`genBookHandler`'s goroutine; the `defer` pair) -/

/-- The observable actions of one book-builder goroutine. -/
inductive BEv where
  /-- `booksSem <- true` — acquire the concurrency slot. -/
  | acquire
  /-- `downloadBook(book)`. -/
  | download
  /-- `buildBookPages(book)`. -/
  | buildPages
  /-- `addSitemapURL(book, book.CanonnicalURL())`. -/
  | sitemapAdd
  /-- Registering the img dir handler, the TOC handler and the covers. -/
  | regHandlers
  /-- The final critical section registering pages and their images. -/
  | regPages
  /-- The logging `defer` (reads `getURLs()`). -/
  | logDone
  /-- `<-booksSem` — release the concurrency slot (first deferred func). -/
  | release
  /-- `booksWg.Done()` — decrement the books-done barrier (same deferred func). -/
  | done
deriving DecidableEq

/-- The builder goroutine's body, in program order, after both `defer`s are
registered (every step below can fail: `must`, `panicIf` and fatal template
errors abort the body at that point). -/
def builderBody : List BEv :=
  [.download, .buildPages, .sitemapAdd, .regHandlers, .regPages]

/-- Go `defer` semantics for this goroutine: the deferred functions run on
every exit of the body — after its last step on normal completion, or right
after step `k` aborts.  `failAt = some k` cuts the body after its first `k`
steps; `none` is normal completion. -/
def runWithDefers (body deferred : List BEv) (failAt : Option Nat) : List BEv :=
  match failAt with
  | none => body ++ deferred
  | some k => body.take k ++ deferred

/-- One complete builder run (`genBookHandler`'s goroutine): acquire the slot,
then the body under the two defers — the logging defer, then the
release-and-decrement defer, registered first and therefore run last. -/
def builderRun (failAt : Option Nat) : List BEv :=
  .acquire :: runWithDefers builderBody [.logDone, .release, .done] failAt

/-- The books-done barrier after all launched builders have exited:
`booksWg.Add(1)` per launch, minus every `booksWg.Done()` any run emitted.
`outcomes` records, per builder, where (if anywhere) its body failed. -/
def booksBarrierAfter (outcomes : List (Option Nat)) : Nat :=
  outcomes.length - ((outcomes.map builderRun).map (List.count .done)).sum

/-! ## The concurrency limiter (`initBookHandlers`, `booksSem`) -/

/-- Where one builder goroutine stands relative to the slot limiter. -/
inductive SemPhase where
  /-- Before `booksSem <- true`. -/
  | waiting
  /-- Between slot acquisition and the deferred `<-booksSem`: executing the
  build body. -/
  | body
  /-- After the deferred `<-booksSem`. -/
  | finished
deriving DecidableEq

/-- The limiter state: the buffered channel's occupancy and each builder's
phase. -/
structure SemState where
  sem : Nat
  tasks : List SemPhase
deriving DecidableEq

/-- The interleaving semantics of `booksSem` (a buffered channel of capacity
`cap = runtime.NumCPU()`): a send (`booksSem <- true`) proceeds only while
the buffer has room; the deferred receive frees one slot. -/
inductive SemStep (cap : Nat) : SemState → SemState → Prop where
  | acquire (s : SemState) (i : Nat) (h : s.tasks[i]? = some .waiting)
      (hs : s.sem < cap) :
      SemStep cap s ⟨s.sem + 1, s.tasks.set i .body⟩
  | release (s : SemState) (i : Nat) (h : s.tasks[i]? = some .body) :
      SemStep cap s ⟨s.sem - 1, s.tasks.set i .finished⟩

/-- `n` builder goroutines before any has tried to acquire a slot. -/
def semInit (n : Nat) : SemState := ⟨0, List.replicate n .waiting⟩

/-- All states an `n`-builder build can reach under a limiter of size `cap`. -/
def SemReach (cap n : Nat) (s : SemState) : Prop :=
  Relation.ReflTransGen (SemStep cap) (semInit n) s

/-- The number of builders currently executing the build body (past slot
acquisition and before slot release). -/
def inBody (s : SemState) : Nat := s.tasks.countP (· == SemPhase.body)

/-! ## The two-tier barrier (`buildServer`, `genToDir`,
`previewToInsantPreview`)

`buildServer` runs, in this order on the main flow: `serverWg.Add(1)`; the
`go` statement launching the sitemap goroutine (whose first action is
`waitBooksDone()`, i.e. `booksWg.Wait()`); then the loop in which each
`genBookHandler` call performs `booksWg.Add(1)` and spawns that book's
builder goroutine.  The exporter (`genToDir` / `previewToInsantPreview`)
calls `waitBuildServerDone()` — `serverWg.Wait()` — only after `buildServer`
returned, and writes files only after that wait.  Because the sitemap
goroutine is launched *before* any `booksWg.Add(1)`, its `Wait` races the
`Add` calls: `sync.WaitGroup.Wait` returns whenever the counter is zero at
that instant, which includes the moment before any builder was launched. -/

/-- The events the export ordering claim talks about. -/
inductive XEv where
  /-- One builder's `booksWg.Done()`. -/
  | bookDone
  /-- The sitemap goroutine reads the per-book URI sets
  (`genSitemapHandler(booksToProcess)`), after its `waitBooksDone()`. -/
  | sitemapRead
  /-- The sitemap goroutine's `serverWg.Done()`. -/
  | serverDone
  /-- The exporter writes a file to the sink (inside
  `WriteServerFilesToDir` / `WriteServerFilesToZip`), after its
  `waitBuildServerDone()`. -/
  | fileWrite
deriving DecidableEq

/-- The joint state of the main flow (the `genBookHandler` launch loop and,
after it, the exporter), the `n` builder goroutines, and the sitemap
goroutine, plus the two `sync.WaitGroup` counters and the observable event
trace (oldest first). -/
structure XState where
  /-- Books whose `genBookHandler` call — its `booksWg.Add(1)` plus the `go`
  statement spawning the builder — has not run yet. -/
  toLaunch : Nat
  /-- Builders already launched that have not yet run `booksWg.Done()`. -/
  running : Nat
  /-- `booksWg`: incremented by each launch, decremented by each `Done()`. -/
  booksWg : Nat
  /-- `serverWg`: `Add(1)` once, before the sitemap goroutine starts. -/
  serverWg : Nat
  /-- Sitemap goroutine: 0 = blocked in `waitBooksDone()`, 1 = its wait has
  passed, 2 = it has read the per-book sets, 3 = it has run
  `serverWg.Done()`. -/
  sitemapPC : Nat
  /-- Exporter: 0 = not yet past `waitBuildServerDone()` / not yet writing,
  1 = has written to the sink. -/
  exporterPC : Nat
  trace : List XEv
deriving DecidableEq

/-- The initial state of a build of `n` books: `serverWg.Add(1)` has run and
the sitemap goroutine is live, but no `genBookHandler` call — hence no
`booksWg.Add(1)` — has happened yet. -/
def xInit (n : Nat) : XState := ⟨n, 0, 0, 1, 0, 0, []⟩

/-- The interleaving semantics of the source as written: the main flow may
launch the next builder at any time; a launched builder may finish at any
time; the sitemap goroutine's wait passes whenever `booksWg` is zero *at
that instant* — including before any launch, since `buildServer` starts the
goroutine before the launch loop — after which it reads the per-book sets
and decrements `serverWg`; the exporter writes only once all launches are
done (program order: `buildServer` returns first) and `serverWg` is zero. -/
inductive XStep : XState → XState → Prop where
  | launch (s : XState) (h : s.toLaunch ≠ 0) :
      XStep s { s with toLaunch := s.toLaunch - 1, running := s.running + 1,
                       booksWg := s.booksWg + 1 }
  | bookDone (s : XState) (h : s.running ≠ 0) :
      XStep s { s with running := s.running - 1, booksWg := s.booksWg - 1,
                       trace := s.trace ++ [.bookDone] }
  | booksWaitPass (s : XState) (hpc : s.sitemapPC = 0) (hw : s.booksWg = 0) :
      XStep s { s with sitemapPC := 1 }
  | sitemapRead (s : XState) (hpc : s.sitemapPC = 1) :
      XStep s { s with sitemapPC := 2, trace := s.trace ++ [.sitemapRead] }
  | serverDone (s : XState) (hpc : s.sitemapPC = 2) :
      XStep s { s with sitemapPC := 3, serverWg := s.serverWg - 1,
                       trace := s.trace ++ [.serverDone] }
  | fileWrite (s : XState) (hpc : s.exporterPC = 0) (hl : s.toLaunch = 0)
      (hw : s.serverWg = 0) :
      XStep s { s with exporterPC := 1, trace := s.trace ++ [.fileWrite] }

/-- All states reachable by any interleaving of an `n`-book export run. -/
def XReach (n : Nat) (s : XState) : Prop :=
  Relation.ReflTransGen XStep (xInit n) s

/-- The claim as stated, over the faithful semantics: whenever a file has
been written, the books-done barrier and the server-setup barrier are at
zero and the trace is all `n` builder completions, then the sitemap read,
then `serverWg.Done()`, then the write. -/
def C1Stated (n : Nat) : Prop :=
  ∀ s, XReach n s → XEv.fileWrite ∈ s.trace →
    s.booksWg = 0 ∧ s.serverWg = 0 ∧
    s.trace = List.replicate n XEv.bookDone
      ++ [XEv.sitemapRead, XEv.serverDone, XEv.fileWrite]

/-- The same transitions under the one scheduling restriction the amended
claim adds: the sitemap goroutine's wait passes only after every builder has
been launched, i.e. every `booksWg.Add(1)` happens before the `Wait` —
the order `sync.WaitGroup` requires of its callers and the spec intends,
but which `buildServer` does not enforce. -/
inductive XStepOrdered : XState → XState → Prop where
  | launch (s : XState) (h : s.toLaunch ≠ 0) :
      XStepOrdered s { s with toLaunch := s.toLaunch - 1,
                              running := s.running + 1,
                              booksWg := s.booksWg + 1 }
  | bookDone (s : XState) (h : s.running ≠ 0) :
      XStepOrdered s { s with running := s.running - 1,
                              booksWg := s.booksWg - 1,
                              trace := s.trace ++ [.bookDone] }
  | booksWaitPass (s : XState) (hpc : s.sitemapPC = 0) (hl : s.toLaunch = 0)
      (hw : s.booksWg = 0) :
      XStepOrdered s { s with sitemapPC := 1 }
  | sitemapRead (s : XState) (hpc : s.sitemapPC = 1) :
      XStepOrdered s { s with sitemapPC := 2,
                              trace := s.trace ++ [.sitemapRead] }
  | serverDone (s : XState) (hpc : s.sitemapPC = 2) :
      XStepOrdered s { s with sitemapPC := 3, serverWg := s.serverWg - 1,
                              trace := s.trace ++ [.serverDone] }
  | fileWrite (s : XState) (hpc : s.exporterPC = 0) (hl : s.toLaunch = 0)
      (hw : s.serverWg = 0) :
      XStepOrdered s { s with exporterPC := 1,
                              trace := s.trace ++ [.fileWrite] }

/-- The states reachable when every launch precedes the sitemap wait. -/
def XReachOrdered (n : Nat) (s : XState) : Prop :=
  Relation.ReflTransGen XStepOrdered (xInit n) s

/-! ## Lock discipline inside `genBookHandler` -/

/-- The pieces of shared state a book's builder and its closures touch. -/
inductive AccObj where
  /-- The `pages` map (url → Page). -/
  | pagesMap
  /-- The `handlers` slice. -/
  | handlersList
  /-- The `filesHandler`'s URI→path map (part of the handler's URI set). -/
  | filesMap
  /-- `book.sitemapURLS` (guarded by `book.muSitemapURLS`). -/
  | sitemapSet
deriving DecidableEq

/-- Whether an access reads or writes. -/
inductive AccKind where
  | readAcc
  | writeAcc
deriving DecidableEq

/-- One access to shared state, labelled with the locks held at that program
point and whether it is one of the three cover-image registrations. -/
structure Access where
  obj : AccObj
  kind : AccKind
  muHeld : Bool
  muSitemapHeld : Bool
  coverReg : Bool
deriving DecidableEq

/-- The shared-state accesses of `genBookHandler` and its goroutine, in
program order, labelled with the locks held at each point (transcribed from
`optimize_images.go`, lines 354–502).  `imgs` gives, for each page the final
critical section registers, its number of images. -/
def builderAccesses (imgs : List Nat) : List Access :=
  -- addHandler(filesHandler): mu.Lock / Unlock inside addHandler
  [⟨.handlersList, .writeAcc, true, false, false⟩]
  -- addSitemapURL(book, book.CanonnicalURL()): muSitemapURLS inside it
  ++ [⟨.sitemapSet, .writeAcc, false, true, false⟩]
  -- addHandler(NewDirHandler(img dir)) and addHandler(toc search handler)
  ++ [⟨.handlersList, .writeAcc, true, false, false⟩,
      ⟨.handlersList, .writeAcc, true, false, false⟩]
  -- the three cover registrations: filesHandler.AddFile with no lock held
  ++ [⟨.filesMap, .writeAcc, false, false, true⟩,
      ⟨.filesMap, .writeAcc, false, false, true⟩,
      ⟨.filesMap, .writeAcc, false, false, true⟩]
  -- the genPage critical section: mu.Lock around every addPage
  ++ (imgs.flatMap fun k =>
        [⟨.sitemapSet, .writeAcc, true, true, false⟩,
         ⟨.pagesMap, .writeAcc, true, false, false⟩]
        ++ List.replicate k ⟨.filesMap, .writeAcc, true, false, false⟩)
  -- the logging defer calls getURLs(), which locks mu
  ++ [⟨.pagesMap, .readAcc, true, false, false⟩,
      ⟨.handlersList, .readAcc, true, false, false⟩,
      ⟨.filesMap, .readAcc, true, false, false⟩]

/-- The reads the `get` closure performs, all between its `mu.Lock()` and the
deferred `mu.Unlock()`. -/
def getClosureAccesses : List Access :=
  [⟨.pagesMap, .readAcc, true, false, false⟩,
   ⟨.handlersList, .readAcc, true, false, false⟩,
   ⟨.filesMap, .readAcc, true, false, false⟩]

/-- The reads the `getURLs` closure performs, all between its `mu.Lock()` and
the deferred `mu.Unlock()`. -/
def getURLsClosureAccesses : List Access :=
  [⟨.pagesMap, .readAcc, true, false, false⟩,
   ⟨.handlersList, .readAcc, true, false, false⟩,
   ⟨.filesMap, .readAcc, true, false, false⟩]

/-- The state the claim calls "the shared page map, handler list, and URI
set": the page map, the handler list, and the file-mapped URI→path map whose
entries the dynamic handler's URI set exposes. -/
def inSharedState (o : AccObj) : Bool :=
  o == .pagesMap || o == .handlersList || o == .filesMap

/-- The lock-discipline property as the claim states it: every access (by the
builder or through the closures) to the shared page map, handler list and
URI set holds the book's mutex `mu`. -/
def MutexDisciplineStated (imgs : List Nat) : Prop :=
  ∀ a ∈ builderAccesses imgs ++ getClosureAccesses ++ getURLsClosureAccesses,
    inSharedState a.obj = true → a.muHeld = true

/-! ## Page traversal (`Book.GetAllPages`, unnamed book file) -/

/-- A book's child links as data: pairs of a page (by identity) and its
`Pages` slice.  `childrenOf` looks a page's children up; a page without an
entry has none. -/
def childrenOf (g : List (Nat × List Nat)) (id : Nat) : List Nat :=
  match g.find? fun e => e.1 == id with
  | some e => e.2
  | none => []

/-- The loop state of `GetAllPages`: the growing `pages` slice, the cursor
`curr`, the `seen` set, and the `p.Parent = page` assignments made so far
(child, parent), in order. -/
structure TravState where
  pages : List Nat
  curr : Nat
  seen : List Nat
  parentAssigns : List (Nat × Nat)
deriving DecidableEq

/-- One iteration of the `GetAllPages` loop (assuming `curr < len(pages)`):
take `pages[curr]`, advance; a seen page is skipped (`continue`), a new page
is marked seen, its children's `Parent` back-references are assigned, and its
children are appended to `pages`. -/
def travStep (g : List (Nat × List Nat)) (s : TravState) : TravState :=
  let page := s.pages.getD s.curr 0
  if page ∈ s.seen then { s with curr := s.curr + 1 }
  else
    { pages := s.pages ++ childrenOf g page
      curr := s.curr + 1
      seen := s.seen ++ [page]
      parentAssigns := s.parentAssigns ++ (childrenOf g page).map fun c => (c, page) }

/-- The `GetAllPages` loop with explicit fuel: run while `curr < len(pages)`
and fuel remains.  (The Go loop has no fuel; the termination theorem shows a
computable fuel after which the guard is false, so the fueled run and the Go
loop agree.) -/
def travRun (g : List (Nat × List Nat)) : Nat → TravState → TravState
  | 0, s => s
  | fuel + 1, s =>
    if s.curr < s.pages.length then travRun g fuel (travStep g s) else s

/-- The initial loop state: `pages = [root]`, nothing seen. -/
def travInit (root : Nat) : TravState := ⟨[root], 0, [], []⟩

/-- `GetAllPages(root)` over the link structure `g`: the `pages` slice after
the loop has run out of unvisited indices (the `cachedPages` fast path, which
only returns a previously computed result, is not modelled). -/
def getAllPagesList (g : List (Nat × List Nat)) (root : Nat) (fuel : Nat) : List Nat :=
  (travRun g fuel (travInit root)).pages

/-- The keys of the link structure, as a finite set. -/
def travKeys (g : List (Nat × List Nat)) : Finset Nat := (g.map (·.1)).toFinset

/-- The total number of children of the not-yet-seen pages: the decreasing
part of the loop's termination potential. -/
def unexpandedWeight (g : List (Nat × List Nat)) (seen : List Nat) : Nat :=
  ∑ v ∈ travKeys g \ seen.toFinset, (childrenOf g v).length

/-- The loop's termination potential: unexpanded children plus pending
indices.  Every iteration decreases it by exactly one. -/
def travPotential (g : List (Nat × List Nat)) (s : TravState) : Nat :=
  unexpandedWeight g s.seen + (s.pages.length - s.curr)

/-- The state of `GetAllPages` after enough iterations for the loop guard to
fail: the potential of the initial state bounds the iteration count. -/
def travFinal (g : List (Nat × List Nat)) (root : Nat) : TravState :=
  travRun g (travPotential g (travInit root)) (travInit root)

/-! # Theorems

Helper lemmas first, then one theorem per claim (with witnesses and
counterexamples where required). -/

theorem lexLe_total (a b : List Char) : lexLe a b = true ∨ lexLe b a = true := by
  induction a generalizing b with
  | nil => left; rfl
  | cons x xs ih =>
    cases b with
    | nil => right; rfl
    | cons y ys =>
      by_cases hlt : x.toNat < y.toNat
      · left; simp [lexLe, hlt]
      · by_cases hgt : y.toNat < x.toNat
        · right; simp [lexLe, hgt]
        · have hxy : ¬ x.toNat < y.toNat := hlt
          rcases ih ys with h | h
          · left; simp [lexLe, hxy, hgt, h]
          · right; simp [lexLe, hxy, hgt, h]

theorem lexLe_trans {a b c : List Char} (hab : lexLe a b = true)
    (hbc : lexLe b c = true) : lexLe a c = true := by
  induction a generalizing b c with
  | nil => rfl
  | cons x xs ih =>
    cases b with
    | nil => simp [lexLe] at hab
    | cons y ys =>
      cases c with
      | nil => simp [lexLe] at hbc
      | cons z zs =>
        simp only [lexLe] at hab hbc ⊢
        by_cases hxy : x.toNat < y.toNat
        · by_cases hyz : y.toNat < z.toNat
          · have hxz : x.toNat < z.toNat := lt_trans hxy hyz
            simp [hxz]
          · by_cases hzy : z.toNat < y.toNat
            · simp [hxy, hyz, hzy] at hbc
            · have hyz' : y.toNat = z.toNat := le_antisymm (not_lt.mp hzy) (not_lt.mp hyz)
              have hxz : x.toNat < z.toNat := hyz' ▸ hxy
              simp [hxz]
        · by_cases hyx : y.toNat < x.toNat
          · simp [hxy, hyx] at hab
          · have hxy' : x.toNat = y.toNat := le_antisymm (not_lt.mp hyx) (not_lt.mp hxy)
            by_cases hyz : y.toNat < z.toNat
            · have hxz : x.toNat < z.toNat := hxy' ▸ hyz
              simp [hxz]
            · by_cases hzy : z.toNat < y.toNat
              · simp [hxy, hyx, hyz, hzy] at hbc
              · have hyz' : y.toNat = z.toNat := le_antisymm (not_lt.mp hzy) (not_lt.mp hyz)
                have hxz : ¬ x.toNat < z.toNat := by rw [hxy', hyz']; exact lt_irrefl _
                have hzx : ¬ z.toNat < x.toNat := by rw [hxy', hyz']; exact lt_irrefl _
                simp only [if_neg hxy, if_neg hyx] at hab
                simp only [if_neg hyz, if_neg hzy] at hbc
                simp only [if_neg hxz, if_neg hzx]
                exact ih hab hbc

theorem sortStrings_sorted (l : List String) : (sortStrings l).Sorted GoLe :=
  @List.sorted_insertionSort String GoLe _
    ⟨fun a b => lexLe_total a.data b.data⟩ ⟨fun _ _ _ => lexLe_trans⟩ l

theorem sortStrings_perm (l : List String) : (sortStrings l).Perm l :=
  List.perm_insertionSort GoLe l

theorem setInsert_nodup {s : List String} (h : s.Nodup) (u : String) :
    (setInsert s u).Nodup := by
  unfold setInsert
  split
  · exact h
  · next hu => simpa [List.nodup_append] using ⟨h, hu⟩

theorem setInsert_count_le {s : List String} (h : s.Nodup) (u v : String) :
    (setInsert s u).count v ≤ 1 := by
  have hcount : ∀ {t : List String}, t.Nodup → t.count v ≤ 1 := by
    intro t ht
    exact List.nodup_iff_count_le_one.mp ht v
  exact hcount (setInsert_nodup h u)

theorem count_flatMap_le_length {α : Type} (f : α → List String) (v : String)
    (l : List α) (h : ∀ b ∈ l, (f b).count v ≤ 1) :
    (l.flatMap f).count v ≤ l.length := by
  induction l with
  | nil => simp
  | cons b bs ih =>
    have hb : (f b).count v ≤ 1 := h b (by simp)
    have hbs : (bs.flatMap f).count v ≤ bs.length :=
      ih fun x hx => h x (by simp [hx])
    calc ((b :: bs).flatMap f).count v
        = (f b).count v + (bs.flatMap f).count v := by
          simp [List.flatMap_cons, List.count_append]
      _ ≤ 1 + bs.length := Nat.add_le_add hb hbs
      _ = (b :: bs).length := by simp [Nat.add_comm]

/-! ### C8: export equivalence -/

/-- **C8.** For a fixed handler set with fixed content, the directory
exporter and the zip exporter produce the same (path, bytes) pairs: each zip
entry is named by its URI with the leading "/" stripped, the directory
export writes exactly those pairs under `dir`, and the archive is stored
with best-compression deflate. -/
theorem C8_export_equivalence (dir : String) (hs : List (MHandler String)) :
    (WriteServerFilesToZip hs).compression = ZipCompression.deflateBest ∧
    (WriteServerFilesToZip hs).entries
      = (IterContent hs).map (fun e => (goTrimLeading e.1 "/", e.2)) ∧
    WriteServerFilesToDir dir hs
      = (WriteServerFilesToZip hs).entries.map (fun e => (filepathJoin dir e.1, e.2)) := by
  refine ⟨rfl, rfl, ?_⟩
  simp [WriteServerFilesToDir, WriteServerFilesToZip, fromSlash, List.map_map,
    Function.comp]

/-! ### C9: idempotent resolution -/

/-- **C9.** Invoking any producer twice with no intervening registration
change yields byte-identical output both times: the page producer recomputes
`BodyHTML` from the unchanged Notion source, so its second render equals its
first; every other variant writes a pure function of its captured data. -/
theorem C9_resolution_idempotent (r : Renderers) (res : Resolution) :
    (invokeResolution r (invokeResolution r res).2).1 = (invokeResolution r res).1 := by
  cases res <;> simp [invokeResolution, pageDataStr]

/-! ### C3: slot release and barrier decrement on every exit path -/

theorem count_take_eq_zero {α : Type} [BEq α] {l : List α} {a : α}
    (h : l.count a = 0) (k : Nat) : (l.take k).count a = 0 :=
  Nat.le_zero.mp (h ▸ (List.take_sublist k l).count_le a)

/-- **C3.** On every exit path of a builder goroutine — normal completion or
failure after any number of body steps — the deferred function releases the
concurrency slot and decrements the books-done barrier exactly once (release
before decrement); hence `N` launched builders, however many of them fail,
bring the books-done barrier to zero once all have exited. -/
theorem C3_barrier_all_exit_paths :
    (∀ failAt, (builderRun failAt).count BEv.done = 1 ∧
      (builderRun failAt).count BEv.release = 1) ∧
    (∀ outcomes : List (Option Nat), booksBarrierAfter outcomes = 0) := by
  have hcount : ∀ failAt, (builderRun failAt).count BEv.done = 1 ∧
      (builderRun failAt).count BEv.release = 1 := by
    intro failAt
    match failAt with
    | none => exact ⟨by decide, by decide⟩
    | some k =>
      have hdone : builderBody.count BEv.done = 0 := by decide
      have hrel : builderBody.count BEv.release = 0 := by decide
      constructor
      · show (BEv.acquire :: (builderBody.take k ++ [BEv.logDone, BEv.release, BEv.done])).count
            BEv.done = 1
        simp [List.count_cons, List.count_append, count_take_eq_zero hdone k]
      · show (BEv.acquire :: (builderBody.take k ++ [BEv.logDone, BEv.release, BEv.done])).count
            BEv.release = 1
        simp [List.count_cons, List.count_append, count_take_eq_zero hrel k]
  refine ⟨hcount, ?_⟩
  intro outcomes
  have hsum : ((outcomes.map builderRun).map (List.count BEv.done)).sum
      = outcomes.length := by
    induction outcomes with
    | nil => rfl
    | cons o os ih =>
      simp only [List.map_cons, List.sum_cons, ih, (hcount o).1, List.length_cons]
      omega
  unfold booksBarrierAfter
  rw [hsum, Nat.sub_self]

/-! ### C2: sitemap and robots content -/

/-- **C2 (counterexample).** Deduplication does not hold across books: with
two books whose sitemap sets start empty, `genSitemapHandler` adds the
absolutized root URL "/" to each book's set and concatenates the sets, so
the root URL appears twice in the served, sorted list. -/
theorem C2_counterexample_duplicate_root :
    sitemapUrls [⟨[]⟩, ⟨[]⟩]
      = ["https://www.programming-books.io/", "https://www.programming-books.io/"] ∧
    ¬ (sitemapUrls [⟨[]⟩, ⟨[]⟩]).Nodup := by
  constructor
  · decide
  · decide

/-- **C2 (amended).** After all book builders have completed, the sitemap
handler serves `/robots.txt` containing the sitemap URL and `/sitemap.txt`
whose lines are the collected absolute URLs in lexicographically sorted
order; URLs are deduplicated within each book (the per-book set), so each
URL appears at most once per book — but a URL shared by several books (in
particular the root "/", added once per book) appears once per contributing
book, not once overall. -/
theorem C2_sitemap_sorted_robots (books : List SBook)
    (hnd : ∀ b ∈ books, b.sitemapURLS.Nodup) :
    (genSitemapHandler books).get "/robots.txt"
      = some (sitemapTmplText (urlJoin siteBaseURL "sitemap.txt")) ∧
    (genSitemapHandler books).get "/sitemap.txt"
      = some (String.intercalate "\n" (sitemapUrls books)) ∧
    (sitemapUrls books).Sorted GoLe ∧
    (∀ u, (sitemapUrls books).count u ≤ books.length) := by
  refine ⟨rfl, rfl, sortStrings_sorted _, ?_⟩
  intro u
  have hperm := (sortStrings_perm
    (books.flatMap fun b => (addSitemapURL b "/").sitemapURLS)).count_eq u
  unfold sitemapUrls
  rw [hperm]
  exact count_flatMap_le_length _ u books fun b hb =>
    setInsert_count_le (hnd b hb) _ u

/-- **C2 (witness).** The amended statement at one book with an empty set. -/
theorem C2_sitemap_sorted_robots_witness :
    (∀ b ∈ ([⟨[]⟩] : List SBook), b.sitemapURLS.Nodup) ∧
    ((genSitemapHandler [⟨[]⟩]).get "/robots.txt"
        = some (sitemapTmplText (urlJoin siteBaseURL "sitemap.txt")) ∧
      (genSitemapHandler [⟨[]⟩]).get "/sitemap.txt"
        = some (String.intercalate "\n" (sitemapUrls [⟨[]⟩])) ∧
      (sitemapUrls [⟨[]⟩]).Sorted GoLe ∧
      (∀ u, (sitemapUrls [⟨[]⟩]).count u ≤ ([⟨[]⟩] : List SBook).length)) :=
  ⟨by decide, C2_sitemap_sorted_robots [⟨[]⟩] (by decide)⟩

/-! ### C4: first-match resolution -/

/-- **C4.** Resolution is first-match: with handlers `A` then `B` both
resolving `x`, the router returns `A`'s producer, never `B`'s; and inside a
book's dynamic handler the fixed URIs win over everything and the page map
wins over the sub-handlers, whatever those would resolve. -/
theorem C4_first_match_wins (A B : MHandler Resolution)
    (hs : List (MHandler Resolution)) (x : String) (pa pb : Resolution)
    (ha : A.get x = some pa) (_hb : B.get x = some pb) :
    FindHandler (A :: B :: hs) x = some pa ∧
    (∀ book pages handlers,
      bookGet book pages handlers (bookIndexURL book)
        = some (Resolution.indexPage book)) ∧
    (∀ book pages handlers uri pg,
      uri ≠ bookIndexURL book → uri ≠ book404URL book →
      uri ≠ bookOverviewURL book → lookupPage pages uri = some pg →
      bookGet book pages handlers uri = some (Resolution.pageTemplate book pg)) := by
  refine ⟨?_, ?_, ?_⟩
  · simp [FindHandler, firstGet, ha]
  · intro book pages handlers
    simp [bookGet]
  · intro book pages handlers uri pg h1 h2 h3 hpg
    simp [bookGet, h1, h2, h3, hpg]

/-- **C4 (witness).** Two concrete handlers both resolving "/x": the first
one's producer is returned. -/
theorem C4_first_match_wins_witness :
    ((⟨fun _ => some (Resolution.fileContent "A"), ["/x"]⟩ : MHandler Resolution).get "/x"
        = some (Resolution.fileContent "A")) ∧
    ((⟨fun _ => some (Resolution.fileContent "B"), ["/x"]⟩ : MHandler Resolution).get "/x"
        = some (Resolution.fileContent "B")) ∧
    (FindHandler [⟨fun _ => some (Resolution.fileContent "A"), ["/x"]⟩,
        ⟨fun _ => some (Resolution.fileContent "B"), ["/x"]⟩] "/x"
      = some (Resolution.fileContent "A") ∧
    (∀ book pages handlers,
      bookGet book pages handlers (bookIndexURL book)
        = some (Resolution.indexPage book)) ∧
    (∀ book pages handlers uri pg,
      uri ≠ bookIndexURL book → uri ≠ book404URL book →
      uri ≠ bookOverviewURL book → lookupPage pages uri = some pg →
      bookGet book pages handlers uri = some (Resolution.pageTemplate book pg))) :=
  ⟨rfl, rfl,
    C4_first_match_wins
      ⟨fun _ => some (Resolution.fileContent "A"), ["/x"]⟩
      ⟨fun _ => some (Resolution.fileContent "B"), ["/x"]⟩ [] "/x" _ _ rfl rfl⟩

/-! ### C7: unknown URIs resolve to absent, served as not-found -/

theorem firstGet_eq_none {P : Type} {hs : List (MHandler P)} {uri : String}
    (h : ∀ hh ∈ hs, hh.get uri = none) : firstGet hs uri = none := by
  induction hs with
  | nil => rfl
  | cons hh t ih =>
    have h0 : hh.get uri = none := h hh (by simp)
    simp [firstGet, h0]
    exact ih fun x hx => h x (by simp [hx])

/-- **C7.** A URI owned by no registered handler resolves to absent (`none`,
not an error): the router returns `none`, the HTTP front end answers
not-found (the total `mainHandler` function — no crash); likewise
`serverGet` answers `none` off its five fixed URIs and a book's `get`
answers `none` when the URI is none of the fixed three, not in the page map
and not owned by a sub-handler. -/
theorem C7_unknown_uri_not_found {P : Type} (hs : List (MHandler P)) (uri : String)
    (h : ∀ hh ∈ hs, hh.get uri = none) :
    FindHandler hs uri = none ∧
    mainHandler hs uri = HResponse.notFound ∧
    (∀ u, u ∉ serverURLS → serverGet u = none) ∧
    (∀ book pages handlers u,
      u ≠ bookIndexURL book → u ≠ book404URL book → u ≠ bookOverviewURL book →
      lookupPage pages u = none → (∀ hh ∈ handlers, MHandler.get hh u = none) →
      bookGet book pages handlers u = none) := by
  have hfind : FindHandler hs uri = none := firstGet_eq_none h
  refine ⟨hfind, by simp [mainHandler, hfind], ?_, ?_⟩
  · intro u hu
    simp only [serverURLS, List.mem_cons, List.not_mem_nil, or_false, not_or] at hu
    obtain ⟨h1, h2, h3, h4, h5⟩ := hu
    simp [serverGet, h1, h2, h3, h4, h5]
  · intro book pages handlers u h1 h2 h3 hpg hsub
    simp [bookGet, h1, h2, h3, hpg, firstGet_eq_none hsub]

/-- **C7 (witness).** One registered handler owning nothing, probed at a URI
it does not own: absent resolution, not-found response. -/
theorem C7_unknown_uri_not_found_witness :
    (∀ hh ∈ [(⟨fun _ => none, []⟩ : MHandler Resolution)],
      MHandler.get hh "/nope" = none) ∧
    (FindHandler [(⟨fun _ => none, []⟩ : MHandler Resolution)] "/nope" = none ∧
      mainHandler [(⟨fun _ => none, []⟩ : MHandler Resolution)] "/nope"
        = HResponse.notFound ∧
      (∀ u, u ∉ serverURLS → serverGet u = none) ∧
      (∀ book pages handlers u,
        u ≠ bookIndexURL book → u ≠ book404URL book → u ≠ bookOverviewURL book →
        lookupPage pages u = none → (∀ hh ∈ handlers, MHandler.get hh u = none) →
        bookGet book pages handlers u = none)) :=
  ⟨by simp, C7_unknown_uri_not_found [⟨fun _ => none, []⟩] "/nope" (by simp)⟩

/-! ### C6: the concurrency limiter bounds in-flight builds -/

theorem semInv_step {cap : Nat} {s t : SemState} (hst : SemStep cap s t)
    (hinv : inBody s = s.sem ∧ s.sem ≤ cap) :
    inBody t = t.sem ∧ t.sem ≤ cap := by
  obtain ⟨hcount, hle⟩ := hinv
  have hc : s.tasks.countP (· == SemPhase.body) = s.sem := hcount
  cases hst with
  | acquire i h hs =>
    obtain ⟨hi, hval⟩ := List.getElem?_eq_some_iff.mp h
    constructor
    · show (s.tasks.set i SemPhase.body).countP (· == SemPhase.body) = s.sem + 1
      rw [List.countP_set _ _ _ _ hi, hval]
      simp
      omega
    · exact hs
  | release i h =>
    obtain ⟨hi, hval⟩ := List.getElem?_eq_some_iff.mp h
    constructor
    · show (s.tasks.set i SemPhase.finished).countP (· == SemPhase.body) = s.sem - 1
      rw [List.countP_set _ _ _ _ hi, hval]
      simp
      omega
    · show s.sem - 1 ≤ cap
      omega

/-- **C6.** In every reachable state of a build of `n` books, the number of
builder goroutines concurrently executing the build body (past `booksSem <-
true` and before the deferred `<-booksSem`) never exceeds the limiter's
capacity `cap = runtime.NumCPU()`. -/
theorem C6_limiter_bounds_inflight (cap n : Nat) (s : SemState)
    (h : SemReach cap n s) : inBody s ≤ cap := by
  have hinv : inBody s = s.sem ∧ s.sem ≤ cap := by
    induction h with
    | refl =>
      refine ⟨?_, Nat.zero_le cap⟩
      show (List.replicate n SemPhase.waiting).countP (· == SemPhase.body) = 0
      rw [List.countP_eq_zero]
      intro a ha
      rw [List.eq_of_mem_replicate ha]
      decide
    | tail _hst hstep ih => exact semInv_step hstep ih
  omega

/-- **C6 (witness).** Two builders under a limiter of size one: after one
acquisition the reachable state has one builder in the body, within bound. -/
theorem C6_limiter_bounds_inflight_witness :
    SemReach 1 2 ⟨1, [SemPhase.body, SemPhase.waiting]⟩ ∧
    inBody ⟨1, [SemPhase.body, SemPhase.waiting]⟩ ≤ 1 := by
  have hreach : SemReach 1 2 ⟨1, [SemPhase.body, SemPhase.waiting]⟩ :=
    Relation.ReflTransGen.head
      (SemStep.acquire (semInit 2) 0 (by decide) (by decide))
      Relation.ReflTransGen.refl
  exact ⟨hreach, C6_limiter_bounds_inflight 1 2 _ hreach⟩

/-! ### C1: export vs. the two barriers -/

/-- **C1 (counterexample).** The racy schedule the source admits: with one
book, the sitemap goroutine runs first — `buildServer` launches it before
the `genBookHandler` loop, so its `booksWg.Wait()` passes on the still-zero
counter — it reads the (incomplete) per-book sets and runs
`serverWg.Done()`; then the builder is launched and, while it is still
running (`booksWg = 1`), the exporter's `waitBuildServerDone()` returns and
a file is written.  The reachable final state violates every part of the
stated property: the write precedes the builder's completion and the sitemap
read preceded the books-done barrier reaching its launched count. -/
theorem C1_counterexample_sitemap_race : ¬ C1Stated 1 := by
  intro h
  have hreach : XReach 1 ⟨0, 1, 1, 0, 3, 1,
      [XEv.sitemapRead, XEv.serverDone, XEv.fileWrite]⟩ :=
    Relation.ReflTransGen.head (XStep.booksWaitPass (xInit 1) rfl rfl)
      (Relation.ReflTransGen.head (XStep.sitemapRead _ rfl)
        (Relation.ReflTransGen.head (XStep.serverDone _ rfl)
          (Relation.ReflTransGen.head (XStep.launch _ (by decide))
            (Relation.ReflTransGen.head (XStep.fileWrite _ rfl rfl rfl)
              Relation.ReflTransGen.refl))))
  have hbad := h _ hreach (by decide)
  exact absurd hbad.1 (by decide)

/-- The inductive invariant of the ordered system: the books counter mirrors
the running builders, launches plus running builders never exceed `n`, the
server counter falls exactly when the sitemap goroutine completes, the
program counters are in range, the sitemap goroutine passes its wait only
with everything launched and finished, the exporter writes only after the
sitemap goroutine completed, and the trace is fully determined by the
control state. -/
def XInv (n : Nat) (s : XState) : Prop :=
  s.booksWg = s.running ∧ s.toLaunch + s.running ≤ n ∧
  s.serverWg = (if s.sitemapPC = 3 then 0 else 1) ∧
  s.sitemapPC ≤ 3 ∧ s.exporterPC ≤ 1 ∧
  (1 ≤ s.sitemapPC → s.toLaunch = 0 ∧ s.running = 0) ∧
  (s.exporterPC = 1 → s.sitemapPC = 3) ∧
  s.trace = List.replicate (n - s.toLaunch - s.running) XEv.bookDone
      ++ (if 2 ≤ s.sitemapPC then [XEv.sitemapRead] else [])
      ++ (if s.sitemapPC = 3 then [XEv.serverDone] else [])
      ++ (if s.exporterPC = 1 then [XEv.fileWrite] else [])

theorem xInv_step {n : Nat} {s t : XState} (hst : XStepOrdered s t)
    (hinv : XInv n s) : XInv n t := by
  obtain ⟨h1, h2, h3, h4, h5, h6, h7, h8⟩ := hinv
  cases hst with
  | launch h =>
    have hpc : s.sitemapPC = 0 := by
      by_contra hne
      exact h (h6 (by omega)).1
    have hexp : s.exporterPC ≠ 1 := fun he => by
      have := h7 he
      omega
    refine ⟨by simp; omega, by simp; omega, by simp [h3], by simpa using h4,
      by simpa using h5, by simp [hpc], ?_, ?_⟩
    · intro he
      simp at he
      exact absurd he hexp
    · show s.trace = _
      rw [h8]
      have hn : n - (s.toLaunch - 1) - (s.running + 1)
          = n - s.toLaunch - s.running := by omega
      simp [hpc, hexp, hn]
  | bookDone h =>
    have hpc : s.sitemapPC = 0 := by
      by_contra hne
      exact h (h6 (by omega)).2
    have hexp : s.exporterPC ≠ 1 := fun he => by
      have := h7 he
      omega
    refine ⟨by simp; omega, by simp; omega, by simp [h3], by simpa using h4,
      by simpa using h5, by simp [hpc], ?_, ?_⟩
    · intro he
      simp at he
      exact absurd he hexp
    · show s.trace ++ [XEv.bookDone] = _
      rw [h8]
      have hn : n - s.toLaunch - (s.running - 1)
          = (n - s.toLaunch - s.running) + 1 := by omega
      simp [hpc, hexp, hn, List.replicate_succ']
  | booksWaitPass hpc hl hw =>
    have hrun : s.running = 0 := by omega
    have hexp : s.exporterPC ≠ 1 := fun he => by
      have := h7 he
      omega
    refine ⟨by simpa using h1, by simpa using h2, by simp [h3, hpc], by simp,
      by simpa using h5, fun _ => by simp [hl, hrun], ?_, ?_⟩
    · intro he
      simp at he
      exact absurd he hexp
    · show s.trace = _
      rw [h8]
      simp [hpc, hexp]
  | sitemapRead hpc =>
    have hl : s.toLaunch = 0 := (h6 (by omega)).1
    have hrun : s.running = 0 := (h6 (by omega)).2
    have hexp : s.exporterPC ≠ 1 := fun he => by
      have := h7 he
      omega
    refine ⟨by simpa using h1, by simpa using h2, by simp [h3, hpc], by simp,
      by simpa using h5, fun _ => by simp [hl, hrun], ?_, ?_⟩
    · intro he
      simp at he
      exact absurd he hexp
    · show s.trace ++ [XEv.sitemapRead] = _
      rw [h8]
      simp [hpc, hexp]
  | serverDone hpc =>
    have hl : s.toLaunch = 0 := (h6 (by omega)).1
    have hrun : s.running = 0 := (h6 (by omega)).2
    have hexp : s.exporterPC ≠ 1 := fun he => by
      have := h7 he
      omega
    refine ⟨by simpa using h1, by simpa using h2, by simp [h3, hpc], by simp,
      by simpa using h5, fun _ => by simp [hl, hrun], ?_, ?_⟩
    · intro he
      simp at he
      exact absurd he hexp
    · show s.trace ++ [XEv.serverDone] = _
      rw [h8]
      simp [hpc, hexp]
  | fileWrite hpc hl hw =>
    have hsm : s.sitemapPC = 3 := by
      by_contra hne
      rw [if_neg hne] at h3
      omega
    have hrun : s.running = 0 := (h6 (by omega)).2
    refine ⟨by simpa using h1, by simpa using h2, by simp [hsm, h3],
      by simp [hsm], by simp, fun _ => by simp [hl, hrun],
      fun _ => by simpa using hsm, ?_⟩
    show s.trace ++ [XEv.fileWrite] = _
    rw [h8]
    simp [hsm, hpc]

theorem xInv_reach {n : Nat} {s : XState} (h : XReachOrdered n s) : XInv n s := by
  induction h with
  | refl =>
    refine ⟨rfl, by simp [xInit], by simp [xInit], by simp [xInit],
      by simp [xInit], by simp [xInit], by simp [xInit], by simp [xInit]⟩
  | tail _hst hstep ih => exact xInv_step hstep ih

/-- **C1 (amended).** In every interleaving in which each builder launch
(its `booksWg.Add(1)`) happens before the sitemap goroutine's
`waitBooksDone()` passes — the order the spec intends, which `buildServer`
as written does not enforce since it launches the sitemap goroutine before
the `genBookHandler` loop — once a file has been written to the sink both
barriers are satisfied (`booksWg = 0`, `serverWg = 0`) and the trace is
forced: all `n` builder completions, then the sitemap goroutine's read of
the per-book URI sets, then its `serverWg.Done()`, and only then the write. -/
theorem C1_export_after_barriers (n : Nat) (s : XState) (h : XReachOrdered n s)
    (hw : XEv.fileWrite ∈ s.trace) :
    s.booksWg = 0 ∧ s.serverWg = 0 ∧
    s.trace = List.replicate n XEv.bookDone
      ++ [XEv.sitemapRead, XEv.serverDone, XEv.fileWrite] := by
  obtain ⟨h1, h2, h3, h4, h5, h6, h7, h8⟩ := xInv_reach h
  have hexp : s.exporterPC = 1 := by
    by_contra hne
    rw [h8] at hw
    simp only [List.mem_append, if_neg hne] at hw
    rcases hw with ((hw | hw) | hw) | hw
    · exact absurd (List.eq_of_mem_replicate hw) (by decide)
    · split at hw <;> simp_all
    · split at hw <;> simp_all
    · simp at hw
  have hsm : s.sitemapPC = 3 := h7 hexp
  have hl : s.toLaunch = 0 := (h6 (by omega)).1
  have hrun : s.running = 0 := (h6 (by omega)).2
  refine ⟨by omega, by simp [h3, hsm], ?_⟩
  rw [h8]
  simp [hsm, hexp, hl, hrun]

/-- **C1 (witness).** A one-book run under the launch-before-wait order:
launch, builder done, wait passes, sitemap read, `serverWg.Done()`, file
write — the theorem applies and the trace is exactly the forced one. -/
theorem C1_export_after_barriers_witness :
    XReachOrdered 1 ⟨0, 0, 0, 0, 3, 1,
      [XEv.bookDone, XEv.sitemapRead, XEv.serverDone, XEv.fileWrite]⟩ ∧
    XEv.fileWrite ∈ ([XEv.bookDone, XEv.sitemapRead, XEv.serverDone,
      XEv.fileWrite] : List XEv) ∧
    ((⟨0, 0, 0, 0, 3, 1, [XEv.bookDone, XEv.sitemapRead, XEv.serverDone,
        XEv.fileWrite]⟩ : XState).booksWg = 0 ∧
      (⟨0, 0, 0, 0, 3, 1, [XEv.bookDone, XEv.sitemapRead, XEv.serverDone,
        XEv.fileWrite]⟩ : XState).serverWg = 0 ∧
      (⟨0, 0, 0, 0, 3, 1, [XEv.bookDone, XEv.sitemapRead, XEv.serverDone,
        XEv.fileWrite]⟩ : XState).trace
        = List.replicate 1 XEv.bookDone
            ++ [XEv.sitemapRead, XEv.serverDone, XEv.fileWrite]) := by
  have hreach : XReachOrdered 1 ⟨0, 0, 0, 0, 3, 1,
      [XEv.bookDone, XEv.sitemapRead, XEv.serverDone, XEv.fileWrite]⟩ :=
    Relation.ReflTransGen.head (XStepOrdered.launch (xInit 1) (by decide))
      (Relation.ReflTransGen.head (XStepOrdered.bookDone _ (by decide))
        (Relation.ReflTransGen.head (XStepOrdered.booksWaitPass _ rfl rfl rfl)
          (Relation.ReflTransGen.head (XStepOrdered.sitemapRead _ rfl)
            (Relation.ReflTransGen.head (XStepOrdered.serverDone _ rfl)
              (Relation.ReflTransGen.head (XStepOrdered.fileWrite _ rfl rfl rfl)
                Relation.ReflTransGen.refl)))))
  exact ⟨hreach, by decide,
    C1_export_after_barriers 1 _ hreach (by decide)⟩

/-! ### C5: lock discipline in `genBookHandler` -/

theorem mem_builderAccesses {imgs : List Nat} {a : Access}
    (h : a ∈ builderAccesses imgs) :
    a ∈ ([⟨.handlersList, .writeAcc, true, false, false⟩,
          ⟨.sitemapSet, .writeAcc, false, true, false⟩,
          ⟨.filesMap, .writeAcc, false, false, true⟩,
          ⟨.sitemapSet, .writeAcc, true, true, false⟩,
          ⟨.pagesMap, .writeAcc, true, false, false⟩,
          ⟨.filesMap, .writeAcc, true, false, false⟩,
          ⟨.pagesMap, .readAcc, true, false, false⟩,
          ⟨.handlersList, .readAcc, true, false, false⟩,
          ⟨.filesMap, .readAcc, true, false, false⟩] : List Access) := by
  unfold builderAccesses at h
  simp only [List.mem_append, List.mem_cons, List.not_mem_nil, or_false,
    List.mem_flatMap, List.mem_replicate] at h
  rcases h with ((((h | h) | (h | h)) | (h | h | h)) | ⟨k, _hk, h⟩) | (h | h | h)
  case _ => subst h; decide
  case _ => subst h; decide
  case _ => subst h; decide
  case _ => subst h; decide
  case _ => subst h; decide
  case _ => subst h; decide
  case _ => subst h; decide
  case _ =>
    rcases h with (h | h) | ⟨_, h⟩ <;> subst h <;> decide
  case _ => subst h; decide
  case _ => subst h; decide
  case _ => subst h; decide

/-- **C5 (counterexample).** Not every mutation of the book's shared state
holds the book's mutex: the three cover-image `AddFile` registrations mutate
the file-mapped URI→path map (part of the handler's URI set) with no lock
held, so the stated discipline fails already for a book with no pages. -/
theorem C5_counterexample_cover_without_mutex :
    ¬ MutexDisciplineStated [] := by
  unfold MutexDisciplineStated
  decide

/-- **C5 (amended).** The discipline that does hold: every access to the
page map and the handler list (by the builder or through the closures) holds
`mu`; every read through the `get` and `getURLs` closures holds `mu`; every
write to the per-book sitemap set holds `muSitemapURLS`; and every write to
the file-mapped URI→path map other than the three cover registrations holds
`mu` — the cover registrations alone run without the mutex. -/
theorem C5_mutex_discipline_amended (imgs : List Nat) :
    (∀ a ∈ builderAccesses imgs ++ getClosureAccesses ++ getURLsClosureAccesses,
      (a.obj = AccObj.pagesMap ∨ a.obj = AccObj.handlersList) → a.muHeld = true) ∧
    (∀ a ∈ getClosureAccesses ++ getURLsClosureAccesses, a.muHeld = true) ∧
    (∀ a ∈ builderAccesses imgs, a.obj = AccObj.sitemapSet →
      a.muSitemapHeld = true) ∧
    (∀ a ∈ builderAccesses imgs, a.obj = AccObj.filesMap →
      a.coverReg = false → a.muHeld = true) := by
  refine ⟨?_, ?_, ?_, ?_⟩
  · intro a ha
    rcases List.mem_append.mp ha with ha | ha
    · rcases List.mem_append.mp ha with ha | ha
      · have := mem_builderAccesses ha
        fin_cases this <;> decide
      · fin_cases ha <;> decide
    · fin_cases ha <;> decide
  · intro a ha
    rcases List.mem_append.mp ha with ha | ha <;> fin_cases ha <;> decide
  · intro a ha
    have := mem_builderAccesses ha
    fin_cases this <;> decide
  · intro a ha
    have := mem_builderAccesses ha
    fin_cases this <;> decide

/-! ### C10: `GetAllPages` termination and duplicates -/

theorem childrenOf_of_not_key {g : List (Nat × List Nat)} {v : Nat}
    (h : v ∉ travKeys g) : childrenOf g v = [] := by
  unfold childrenOf
  rw [List.find?_eq_none.mpr]
  intro e he
  simp only [beq_iff_eq]
  intro hev
  apply h
  unfold travKeys
  rw [List.mem_toFinset]
  exact List.mem_map.mpr ⟨e, he, hev⟩

theorem unexpandedWeight_snoc (g : List (Nat × List Nat)) (seen : List Nat)
    (v : Nat) (hv : v ∉ seen) :
    unexpandedWeight g (seen ++ [v]) + (childrenOf g v).length
      = unexpandedWeight g seen := by
  unfold unexpandedWeight
  have hins : (seen ++ [v]).toFinset = insert v seen.toFinset := by
    ext x
    simp [or_comm]
  rw [hins, Finset.sdiff_insert]
  by_cases hk : v ∈ travKeys g \ seen.toFinset
  · exact Finset.sum_erase_add _ _ hk
  · have hvk : v ∉ travKeys g := fun hvk =>
      hk (Finset.mem_sdiff.mpr ⟨hvk, by simpa using hv⟩)
    rw [Finset.erase_eq_of_not_mem hk, childrenOf_of_not_key hvk]
    simp

theorem travPotential_step (g : List (Nat × List Nat)) (s : TravState)
    (h : s.curr < s.pages.length) :
    travPotential g (travStep g s) + 1 = travPotential g s := by
  unfold travStep travPotential
  by_cases hseen : s.pages.getD s.curr 0 ∈ s.seen
  · simp only [hseen, if_pos]
    omega
  · simp only [hseen, if_neg, not_false_iff, List.length_append]
    have hw := unexpandedWeight_snoc g s.seen (s.pages.getD s.curr 0) hseen
    omega

theorem travRun_completes (g : List (Nat × List Nat)) (fuel : Nat)
    (s : TravState) (h : travPotential g s ≤ fuel) :
    ¬ ((travRun g fuel s).curr < (travRun g fuel s).pages.length) := by
  induction fuel generalizing s with
  | zero =>
    show ¬ (s.curr < s.pages.length)
    unfold travPotential at h
    omega
  | succ fuel ih =>
    show ¬ ((if s.curr < s.pages.length then travRun g fuel (travStep g s) else s).curr
      < (if s.curr < s.pages.length then travRun g fuel (travStep g s) else s).pages.length)
    split
    · next hlt =>
      apply ih
      have := travPotential_step g s hlt
      omega
    · next hlt => exact hlt

theorem travStep_inv {g : List (Nat × List Nat)} {s : TravState}
    (h : s.seen.Nodup ∧ ∀ cp ∈ s.parentAssigns, cp.1 ∈ childrenOf g cp.2) :
    (travStep g s).seen.Nodup ∧
    ∀ cp ∈ (travStep g s).parentAssigns, cp.1 ∈ childrenOf g cp.2 := by
  obtain ⟨hnd, hpar⟩ := h
  unfold travStep
  by_cases hseen : s.pages.getD s.curr 0 ∈ s.seen
  · simp only [hseen, if_pos]
    exact ⟨hnd, hpar⟩
  · simp only [hseen, if_neg, not_false_iff]
    refine ⟨?_, ?_⟩
    · rw [List.nodup_append]
      refine ⟨hnd, List.nodup_singleton _, fun x hx hxv => ?_⟩
      rw [List.mem_singleton] at hxv
      subst hxv
      exact hseen hx
    intro cp hcp
    rcases List.mem_append.mp hcp with hcp | hcp
    · exact hpar cp hcp
    · obtain ⟨c, hc, rfl⟩ := List.mem_map.mp hcp
      simpa using hc

theorem travRun_inv (g : List (Nat × List Nat)) (fuel : Nat) (s : TravState)
    (h : s.seen.Nodup ∧ ∀ cp ∈ s.parentAssigns, cp.1 ∈ childrenOf g cp.2) :
    (travRun g fuel s).seen.Nodup ∧
    ∀ cp ∈ (travRun g fuel s).parentAssigns, cp.1 ∈ childrenOf g cp.2 := by
  induction fuel generalizing s with
  | zero => exact h
  | succ fuel ih =>
    unfold travRun
    split
    · exact ih _ (travStep_inv h)
    · exact h

/-- **C10 (counterexample).** A page reachable from two parents appears twice
in the returned list: with children 0 → [1, 2], 1 → [3], 2 → [3], the loop
returns [0, 1, 2, 3, 3] — the `seen` check prevents re-expansion, not
re-appending, so the "appears at most once" part of the claim fails. -/
theorem C10_counterexample_diamond :
    getAllPagesList [(0, [1, 2]), (1, [3]), (2, [3])] 0 16 = [0, 1, 2, 3, 3] ∧
    ¬ (getAllPagesList [(0, [1, 2]), (1, [3]), (2, [3])] 0 16).Nodup := by
  constructor
  · decide
  · decide

/-- **C10 (amended).** For every child structure — including shared children
and cycles — `GetAllPages` terminates: after at most `travPotential` many
iterations the loop guard is false; every page is *expanded* at most once
(the `seen` list stays duplicate-free), and every recorded `Parent`
back-reference points from a child to the page whose expansion assigned it.
The returned list, however, may contain a page once per parent it is
reachable from (see the counterexample). -/
theorem C10_traversal_terminates (g : List (Nat × List Nat)) (root : Nat) :
    (¬ ((travFinal g root).curr < (travFinal g root).pages.length)) ∧
    (travFinal g root).seen.Nodup ∧
    (∀ cp ∈ (travFinal g root).parentAssigns, cp.1 ∈ childrenOf g cp.2) := by
  refine ⟨travRun_completes g _ _ (Nat.le_refl _), ?_, ?_⟩
  · exact (travRun_inv g _ _ ⟨List.nodup_nil, by simp [travInit]⟩).1
  · exact (travRun_inv g _ _ ⟨List.nodup_nil, by simp [travInit]⟩).2

end PBooks
